import Mathlib

/-!
Shallow embedding of the `copy` Go library: a recursive file/directory
copy utility built from a cancellable byte-stream loop (`copyBytes`), a
per-file copier (`copyFile`), a tree walk (`copyFolder` / `copyTree`), a
top-level orchestrator (`Copy`) and functional options.  The repository
contains several variants of the same design; each definition below names
the variant it is translated from (`copy.go` / `options.go` for the
current named sources, `copyTree`-style functions for the v2 variant that
carries the `ErrSame` / exclude / no-follow logic and its tests).

Conventions of the embedding:
* Paths are lists of characters; file contents are lists of bytes,
  written as natural numbers.
* The filesystem is a partial map from paths to file objects carrying an
  identity (the inode used by `os.SameFile`), a directory flag and a
  content.
* `context.Context` is modelled by the index of the first poll at which
  `ctx.Err()` is non-nil (`cancelAt`); the context wrappers poll before
  every read and every write, exactly as `readerWithContext` /
  `writerWithContext` and the `contextio` package do.
* Reads from a regular file return `min size remaining` bytes; OS-level
  failures of stat/open/mkdir/rename are modelled as explicit branch
  parameters where a claim depends on them.  Symlink resolution is the
  identity (absolute paths, non-symlink sources), matching the spec's
  treatment of path resolution as an external primitive.
* Loops that consume `take size` / `drop size` chunks are written with an
  explicit fuel argument so that they are structurally recursive and
  evaluate by `decide` / `rfl`; the top-level wrappers pass `length + 1`
  fuel, which is always sufficient because every looping iteration of the
  Go loop consumes at least one byte.
-/

/-- Result of the byte-stream loop: clean end-of-input exit, or context
cancellation observed at a poll. -/
inductive CRes where
  | ok
  | canceled
deriving DecidableEq

/-- Observable outcome of one run of the `copyBytes` loop: final result,
bytes written to the destination handle, bytes fed to the hash sink, and
the number of read/write operations actually performed. -/
structure LoopOut where
  res : CRes
  dst : List Nat
  hsh : List Nat
  ops : Nat
deriving DecidableEq

/-- `ctx.Err() != nil` at poll index `poll`: the context is canceled from
poll index `c` onwards (`none` = never canceled). -/
def ctxCanceled : Option Nat → Nat → Bool
  | none, _ => false
  | some c, poll => decide (c ≤ poll)

/-- The `copyBytes` loop of `copy.go` (the same loop shape as `copyFile`
of the older variant and `copyBytes` of the v2 variant): read up to
`size` bytes, stop successfully on a zero-byte read, otherwise write the
chunk and repeat.  Every read and every write first polls the context
(`readerWithContext` / `writerWithContext`).  Each written chunk reaches
the destination once and the hash sink `hc` times: `hc = 2` reproduces
`copyFile` + `copyBytes` of `copy.go`, which wrap the hash into the
writer chain twice (`io.MultiWriter(dstF, hash)` in `copyFile` and
`io.MultiWriter(w, h)` again inside `copyBytes`); `hc = 0` is the
no-hash case.  `fuel` only bounds the number of iterations;
`data.length + 1` is always enough since every looping iteration consumes
at least one byte. -/
def copyBytesGo (size hc : Nat) (cancelAt : Option Nat) : Nat → List Nat → Nat → LoopOut
  | 0, _, _ => ⟨.ok, [], [], 0⟩
  | fuel + 1, data, poll =>
    if ctxCanceled cancelAt poll then ⟨.canceled, [], [], 0⟩
    else
      let chunk := data.take size
      if chunk.isEmpty then ⟨.ok, [], [], 1⟩
      else if ctxCanceled cancelAt (poll + 1) then ⟨.canceled, [], [], 1⟩
      else
        let rest := copyBytesGo size hc cancelAt fuel (data.drop size) (poll + 2)
        ⟨rest.res, chunk ++ rest.dst, (List.replicate hc chunk).flatten ++ rest.hsh, 2 + rest.ops⟩

/-- Entry point of the loop: poll counter starts at 0. -/
def copyBytesLoop (size hc : Nat) (cancelAt : Option Nat) (data : List Nat) : LoopOut :=
  copyBytesGo size hc cancelAt (data.length + 1) data 0

/-- Total number of read/write operations a full, uncancelled run of the
loop performs on `data`: a read and a write per non-empty chunk, plus the
final zero-byte read. -/
def opsTotalGo (size : Nat) : Nat → List Nat → Nat
  | 0, _ => 0
  | fuel + 1, data =>
    if (data.take size).isEmpty then 1 else 2 + opsTotalGo size fuel (data.drop size)

def opsTotal (size : Nat) (data : List Nat) : Nat := opsTotalGo size (data.length + 1) data

/-- Errors surfaced by the embedded `copyFile`.  `wrapped a b` models
`fmt.Errorf("%w: %s", a, b)`: the stream error wrapped together with the
cleanup error. -/
inductive FErr where
  | canceled
  | removeErr
  | wrapped (primary cleanup : FErr)
deriving DecidableEq

/-- Observable outcome of the embedded `copyFile`: returned error, whether
a file is present at the destination path afterwards, its byte content,
the bytes the hash sink consumed, and the number of read/write operations
the stream performed. -/
structure FileCopyOut where
  err : Option FErr
  dstExists : Bool
  dstBytes : List Nat
  hshBytes : List Nat
  ops : Nat
deriving DecidableEq

/-- `copyFile` of `copy.go`: open the source, create/truncate the
destination with the source's permission bits, stream the content through
`copyBytes`; when the stream fails and `revert` is set, remove the
destination file, and if that removal itself fails return the stream
error wrapped together with the removal error.  With a hash configured
(`hashSet`), the writer handed to the loop feeds each chunk to the hash
twice, as the two `io.MultiWriter` wraps in the source do. -/
def copyFileM (size : Nat) (hashSet revert : Bool) (data : List Nat)
    (cancelAt : Option Nat) (removeFails : Bool) : FileCopyOut :=
  let hc := if hashSet then 2 else 0
  let out := copyBytesLoop size hc cancelAt data
  match out.res with
  | .ok => ⟨none, true, out.dst, out.hsh, out.ops⟩
  | .canceled =>
    if revert then
      if removeFails then ⟨some (.wrapped .canceled .removeErr), true, out.dst, out.hsh, out.ops⟩
      else ⟨some .canceled, false, [], out.hsh, out.ops⟩
    else ⟨some .canceled, true, out.dst, out.hsh, out.ops⟩

/-- The `options` record of `options.go` (v1 variant).  `hashSet`
abstracts `hash != nil`. -/
structure optionsV1 where
  exclude : List (List Char) := []
  hashSet : Bool := false
  bufSize : Int := 0
  force : Bool := false
  contentOnly : Bool := false
  move : Bool := false
  revert : Bool := false
  follow : Bool := false
deriving DecidableEq

/-- `defaultBufferSize` of `options.go`. -/
def defaultBufferSize : Int := 4096

/-- `defaultOptions` of `options.go`. -/
def defaultOptions : optionsV1 := { bufSize := defaultBufferSize }

/-- `WithBufferSize` of `options.go`: a non-positive size is ignored and
the configuration keeps its current (default) buffer size. -/
def WithBufferSize (size : Int) (o : optionsV1) : optionsV1 :=
  if size ≤ 0 then o else { o with bufSize := size }

/-- Paths are plain character lists. -/
abbrev FPath := List Char

/-- Greedy left-to-right replacement step: when the pattern matches at
the head, emit the replacement and continue past the match, otherwise
keep one character.  For a non-empty pattern every step consumes at least
one character, so `fuel = s.length + 1` never runs out. -/
def replGo (pat rep : List Char) : Nat → List Char → List Char
  | 0, s => s
  | _ + 1, [] => []
  | fuel + 1, c :: rest =>
    if pat.isPrefixOf (c :: rest) then
      rep ++ replGo pat rep fuel (rest.drop (pat.length - 1))
    else c :: replGo pat rep fuel rest

/-- `strings.ReplaceAll(s, pat, rep)` for a non-empty pattern: every
non-overlapping, leftmost-first occurrence of `pat` in `s` is replaced by
`rep`.  The walk only calls it with the (non-empty) source root path as
the pattern, so the empty-pattern behaviour of the Go function is never
exercised and is left as the identity. -/
def replaceAll (s pat rep : List Char) : List Char :=
  if pat.isEmpty then s else replGo pat rep (s.length + 1) s

/-- Destination path computed for a visited node of the tree walk:
`subDst := strings.ReplaceAll(root, src, dst)` in `copyFolder`
(`copy.go`) and `copyTree` (v2). -/
def walkSubDst (root src dst : FPath) : FPath := replaceAll root src dst

/-- The destination path as the spec words it: only the leading
source-root occurrence is substituted, i.e. the destination root joined
with the node's position relative to the source root. -/
def specSubDst (root src dst : FPath) : FPath := dst ++ root.drop src.length

/-- A filesystem object: identity (inode, what `os.SameFile` compares),
directory flag, and content. -/
structure FileObj where
  ident : Nat
  isDir : Bool
  content : List Nat
deriving DecidableEq

/-- The filesystem: a partial map from paths to file objects. -/
abbrev FS := FPath → Option FileObj

/-- `p ++ "/"` is a leading part of `q`: `q` lies strictly inside the
tree rooted at `p`. -/
def isUnderB (p q : FPath) : Bool := (p ++ ['/']).isPrefixOf q

/-- `os.RemoveAll(p)`: drop `p` and everything under it. -/
def removeAllM (p : FPath) (fs : FS) : FS :=
  fun q => if q = p ∨ isUnderB p q then none else fs q

/-- `q` is one of the directories `os.MkdirAll(d)` creates: a leading
part of `d` ending at a component boundary. -/
def mkdirTargetB (q d : FPath) : Bool :=
  q.isPrefixOf d && (q.length == d.length || d.getD q.length '/' == '/')

/-- `os.MkdirAll(d, mode)`: create the missing directories on the chain
down to `d`.  Mode bits are not tracked; freshly created directories get
identity 0, which no claim inspects. -/
def mkdirAllM (d : FPath) (fs : FS) : FS :=
  fun q =>
    match fs q with
    | some o => some o
    | none => if mkdirTargetB q d then some ⟨0, true, []⟩ else none

/-- The file-name component of `path.Split`: everything after the last
slash. -/
def splitFile (p : FPath) : FPath := (p.reverse.takeWhile (fun c => c != '/')).reverse

/-- The directory component of `path.Split`: everything up to and
including the last slash. -/
def splitDir (p : FPath) : FPath := p.take (p.length - (splitFile p).length)

/-- `path.Dir` without the final `Clean`: the characters before the last
slash, `"."` when there is no slash. -/
def pathDir (p : FPath) : FPath :=
  let f := splitFile p
  if f.length = p.length then ['.'] else p.take (p.length - f.length - 1)

/-- Outcome of the top-level preamble of `Copy` (v2 variant). -/
inductive PreOutcome where
  | errSrcStat
  | okExcluded
  | errSame
  | errExist
  | proceedDir
  | proceedFile
deriving DecidableEq

/-- The top-level preamble of `Copy` in the v2 variant: resolve the
source (modelled as the identity: paths are absolute and the source is
not a symlink, so the resolver's `link` flag is `false` and the
`noFollow` short-cut is never taken), consult the exclude predicate
(`return nil` on a match), stat the source, then handle a pre-existing
destination: the same file identity fails with `ErrSame`; without
`force` it fails with `fs.ErrExist`; with `force` the destination is
removed entirely (`os.RemoveAll`).  Finally the destination's parent
chain is created (`os.MkdirAll(dstDir, ...)`) and control dispatches on
the source kind.  The base-name append for a destination ending in a
slash only affects the path used by the dispatched stage, not the
preamble's outcome or state, and is not tracked here. -/
def copyPre (exclude : FPath → Bool) (force : Bool) (fs : FS) (src dst : FPath) :
    PreOutcome × FS :=
  if exclude src then (.okExcluded, fs)
  else
    match fs src with
    | none => (.errSrcStat, fs)
    | some srcObj =>
      let fin : FS → PreOutcome × FS := fun fs1 =>
        let fs2 := mkdirAllM (splitDir dst) fs1
        if srcObj.isDir then (.proceedDir, fs2) else (.proceedFile, fs2)
      match fs dst with
      | some dstObj =>
        if srcObj.ident = dstObj.ident then (.errSame, fs)
        else if force then fin (removeAllM dst fs)
        else (.errExist, fs)
      | none => fin fs

/-- What the walk callback did for a non-directory entry. -/
inductive WalkFileRes where
  | skipped
  | copied
deriving DecidableEq

/-- The non-directory branch of the `filepath.Walk` callback in
`copyFolder` (`copy.go`): stat the computed destination `subDst`; copy
(create or truncate the destination and stream the whole content —
modelled here as the successful, uncancelled write) only when the
destination does not exist or `force` is set; otherwise return `nil`
without touching anything.  The middle component is the error value the
callback returns.  A freshly copied file gets identity 0, which no claim
inspects. -/
def folderFileStep (force : Bool) (src dst : FPath) (fs : FS) (root : FPath)
    (content : List Nat) : WalkFileRes × Option FErr × FS :=
  let subDst := walkSubDst root src dst
  if (fs subDst).isNone || force then
    (.copied, none, fun q => if q = subDst then some ⟨0, false, content⟩ else fs q)
  else (.skipped, none, fs)

/-- `rename(src, dst, h)` of `copy.go`: stat the source; for a regular
file with a hash configured, open the source and read it whole into the
hash (`io.Copy(h, f)`), then stat the source's directory; create the
destination's parent chain; attempt `os.Rename`.  Each fallible step
carries an explicit success flag; a failing `io.Copy` leaves a prefix of
`k` bytes in the hash.  Returns whether the rename succeeded, together
with the bytes fed to the hash during the attempt. -/
def renameM (isDir hashSet : Bool) (content : List Nat)
    (statSrcOk openOk readOk statDirOk mkdirOk renameOk : Bool) (k : Nat) :
    Bool × List Nat :=
  if !statSrcOk then (false, [])
  else if isDir then
    if !mkdirOk then (false, []) else (renameOk, [])
  else if hashSet then
    if !openOk then (false, [])
    else if !readOk then (false, content.take k)
    else if !statDirOk then (false, content)
    else if !mkdirOk then (false, content)
    else (renameOk, content)
  else if !statDirOk then (false, [])
  else if !mkdirOk then (false, [])
  else (renameOk, [])

/-- The `move` branch of `Copy` (`copy.go`): attempt `rename`; on success
the hash keeps exactly what the attempt fed it; on failure
`opt.hash.Reset()` clears the hash (when one is configured) and the
ordinary copy path runs, feeding the hash through `copyFile` /
`copyBytes`.  First component: whether the fast rename happened; second:
the full byte sequence the hash sink has consumed when `Copy` returns. -/
def copyMoveHash (isDir hashSet : Bool) (content : List Nat) (bufSize : Nat)
    (statSrcOk openOk readOk statDirOk mkdirOk renameOk : Bool) (k : Nat) :
    Bool × List Nat :=
  let att := renameM isDir hashSet content statSrcOk openOk readOk statDirOk mkdirOk renameOk k
  if att.1 then (true, att.2)
  else
    let h0 : List Nat := if hashSet then [] else att.2
    (false, h0 ++ (copyBytesLoop bufSize (if hashSet then 2 else 0) none content).hsh)

mutual
/-- A source tree node: a regular file with its content, or a directory
with its children.  Symlinks are outside this model: the symlink branch
of the walk emits no file write, so it cannot affect the events the tree
claims are about. -/
inductive FNode where
  | file (name : FPath) (content : List Nat)
  | dir (name : FPath) (children : Forest)

/-- The ordered children of a directory, as `filepath.Walk` visits them. -/
inductive Forest where
  | nil
  | cons (head : FNode) (tail : Forest)
end

/-- Name of a node. -/
def FNode.name : FNode → FPath
  | .file n _ => n
  | .dir n _ => n

/-- The full path of a child named `n` under `p`. -/
def childPath (p n : FPath) : FPath := p ++ '/' :: n

/-- Destination-side events of the tree walk: directory creation
(`os.MkdirAll`) and opening a file for writing (`os.OpenFile` with
`O_CREATE|O_TRUNC`). -/
inductive Ev where
  | mkdirAll (p : FPath)
  | openW (p : FPath)
deriving DecidableEq

mutual
/-- The event trace of `copyTree` (v2) walking the node whose full source
path is `rt`: excluded nodes produce nothing; a directory is created at
its computed destination (with the source's mode bits); a file first
ensures its destination's parent directory
(`os.MkdirAll(path.Dir(subDst), ...)`), then is opened for writing.
`filepath.Walk` visits a directory before its children (pre-order), so
the children's events follow the directory's. -/
def treeEvents (ex : FPath → Bool) (src dst : FPath) : FPath → FNode → List Ev
  | rt, .file _ _ =>
    if ex rt then []
    else [.mkdirAll (pathDir (walkSubDst rt src dst)), .openW (walkSubDst rt src dst)]
  | rt, .dir _ cs =>
    (if ex rt then [] else [.mkdirAll (walkSubDst rt src dst)]) ++ forestEvents ex src dst rt cs

/-- Events of the children of a directory at source path `rt`, in visit
order. -/
def forestEvents (ex : FPath → Bool) (src dst : FPath) : FPath → Forest → List Ev
  | _, .nil => []
  | rt, .cons c cs =>
    treeEvents ex src dst (childPath rt c.name) c ++ forestEvents ex src dst rt cs
end

mutual
/-- Full source paths of the regular files in a subtree. -/
def filePathsN : FPath → FNode → List FPath
  | rt, .file _ _ => [rt]
  | rt, .dir _ cs => filePathsF rt cs

/-- Full source paths of the regular files in a forest of children. -/
def filePathsF : FPath → Forest → List FPath
  | _, .nil => []
  | rt, .cons c cs => filePathsN (childPath rt c.name) c ++ filePathsF rt cs
end

/-- Membership in a forest. -/
inductive ForestMem : FNode → Forest → Prop where
  | head (c : FNode) (cs : Forest) : ForestMem c (.cons c cs)
  | tail (c d : FNode) (cs : Forest) : ForestMem c cs → ForestMem c (.cons d cs)

/-- `SubtreeAt rt t q s`: walking `t`, whose own full source path is
`rt`, the walk reaches node `s` at full source path `q`. -/
inductive SubtreeAt : FPath → FNode → FPath → FNode → Prop where
  | refl (rt : FPath) (t : FNode) : SubtreeAt rt t rt t
  | child {rt q : FPath} {c s : FNode} (n : FPath) (cs : Forest) :
      ForestMem c cs → SubtreeAt (childPath rt c.name) c q s →
      SubtreeAt rt (.dir n cs) q s

/-- Replay a trace against the set of directories created so far: a
`mkdirAll` records its directory, and every open-for-write requires that
the parent directory of the opened path has been created earlier. -/
def SafeTrace : List FPath → List Ev → Prop
  | _, [] => True
  | ds, .mkdirAll p :: r => SafeTrace (p :: ds) r
  | ds, .openW p :: r => pathDir p ∈ ds ∧ SafeTrace ds r

/-- Directories known to exist after replaying a trace. -/
def runDirs : List FPath → List Ev → List FPath
  | ds, [] => ds
  | ds, .mkdirAll p :: r => runDirs (p :: ds) r
  | ds, .openW _ :: r => runDirs ds r

/-! ### The byte-stream loop on an uncancelled context -/

theorem copyBytesGo_none (size hc : Nat) (hs : 0 < size) :
    ∀ (fuel : Nat) (data : List Nat) (poll : Nat), data.length < fuel →
      (copyBytesGo size hc none fuel data poll).res = .ok
      ∧ (copyBytesGo size hc none fuel data poll).dst = data := by
  intro fuel
  induction fuel with
  | zero => intro data poll h; omega
  | succ n ih =>
    intro data poll h
    by_cases hemp : (data.take size).isEmpty
    · have hnil : data = [] := by
        rcases List.take_eq_nil_iff.mp (List.isEmpty_iff.mp hemp) with h0 | h0
        · omega
        · exact h0
      subst hnil
      simp [copyBytesGo, ctxCanceled]
    · have hd : data ≠ [] := by
        intro h0; subst h0; simp at hemp
      have hlen : (data.drop size).length < n := by
        have hpos : 0 < data.length := List.length_pos.mpr hd
        have hdl : (data.drop size).length = data.length - size := List.length_drop size data
        omega
      have hrec := ih (data.drop size) (poll + 2) hlen
      simp [copyBytesGo, ctxCanceled, hemp, hrec.1, hrec.2, List.take_append_drop]

/-- C1: for every source byte sequence and every positive buffer size, an
uncancelled run of the embedded `copyFile` returns success and the byte
sequence written to the freshly truncated destination file is exactly the
source's byte sequence, with or without a hash sink and regardless of the
revert option. -/
theorem c1_copyFile_dst_eq_src (size : Nat) (hashSet revert removeFails : Bool)
    (data : List Nat) (hs : 0 < size) :
    (copyFileM size hashSet revert data none removeFails).err = none
    ∧ (copyFileM size hashSet revert data none removeFails).dstBytes = data := by
  have h := copyBytesGo_none size (if hashSet then 2 else 0) hs (data.length + 1) data 0
    (by omega)
  simp only [copyFileM, copyBytesLoop]
  rw [h.1]
  simp [h.2]

/-- Witness for C1 at buffer size 2 and a three-byte source. -/
theorem c1_witness :
    (copyFileM 2 true true [1, 2, 3] none false).err = none
    ∧ (copyFileM 2 true true [1, 2, 3] none false).dstBytes = [1, 2, 3] :=
  c1_copyFile_dst_eq_src 2 true true false [1, 2, 3] (by decide)

/-- C9 counterexample: the configuration's default buffer size is 4096
bytes, not 64 KiB (65536) as claimed. -/
theorem c9_counterexample :
    defaultOptions.bufSize = 4096 ∧ defaultOptions.bufSize ≠ 65536 := by decide

/-- C9 (amended): the buffer size defaults to 4096 bytes; applying
`WithBufferSize` with a non-positive argument leaves the configuration
unchanged (the default is retained), and with a positive argument it sets
exactly that size. -/
theorem c9_buffer_size_semantics :
    defaultOptions.bufSize = 4096
    ∧ (∀ (s : Int) (o : optionsV1), s ≤ 0 → WithBufferSize s o = o)
    ∧ (∀ (s : Int) (o : optionsV1), 0 < s → (WithBufferSize s o).bufSize = s) := by
  refine ⟨rfl, fun s o h => ?_, fun s o h => ?_⟩
  · simp [WithBufferSize, h]
  · simp [WithBufferSize, not_le.mpr h]

/-- Witness for C9 at sizes -3 and 7. -/
theorem c9_witness :
    WithBufferSize (-3) defaultOptions = defaultOptions
    ∧ (WithBufferSize 7 defaultOptions).bufSize = 7 :=
  ⟨c9_buffer_size_semantics.2.1 (-3) defaultOptions (by decide),
   c9_buffer_size_semantics.2.2 7 defaultOptions (by decide)⟩

/-- C5: evaluating `copyFile` of `copy.go` with a hash configured on a
one-byte source exposes the double `io.MultiWriter` wrap: the destination
receives the source byte once, but the hash sink receives it twice, so
the byte sequence fed to the hash is not the byte sequence of the final
destination file. -/
theorem c5_hash_fed_twice :
    (copyFileM 4096 true false [7] none false).dstBytes = [7]
    ∧ (copyFileM 4096 true false [7] none false).hshBytes = [7, 7]
    ∧ (copyFileM 4096 true false [7] none false).hshBytes
        ≠ (copyFileM 4096 true false [7] none false).dstBytes := by decide

/-- C8: at source root `/a` and destination root `/b`, the walk's
computed destination for the visited node `/a/a` is `/b/b` — ReplaceAll
substitutes the second, non-leading occurrence of the source root as
well — while substitution of only the leading prefix, as the spec words
it, yields `/b/a`. -/
theorem c8_walk_dst_differs_from_spec :
    walkSubDst ['/', 'a', '/', 'a'] ['/', 'a'] ['/', 'b'] = ['/', 'b', '/', 'b']
    ∧ specSubDst ['/', 'a', '/', 'a'] ['/', 'a'] ['/', 'b'] = ['/', 'b', '/', 'a']
    ∧ walkSubDst ['/', 'a', '/', 'a'] ['/', 'a'] ['/', 'b']
        ≠ specSubDst ['/', 'a', '/', 'a'] ['/', 'a'] ['/', 'b'] := by decide

/-- C10: with the move option, a regular-file source and a configured
hash sink: when the fast rename succeeds the hash has consumed exactly
the complete source content (read into it before the rename), and when
the rename attempt fails — at whichever step, after however many bytes —
the hash is reset first, so on return it holds exactly the bytes fed by
the fallback copy path and nothing from the rename attempt. -/
theorem c10_move_hash_consistency (content : List Nat) (bufSize : Nat)
    (statSrcOk openOk readOk statDirOk mkdirOk renameOk : Bool) (k : Nat) :
    ((copyMoveHash false true content bufSize statSrcOk openOk readOk statDirOk mkdirOk
        renameOk k).1 = true →
      (copyMoveHash false true content bufSize statSrcOk openOk readOk statDirOk mkdirOk
        renameOk k).2 = content)
    ∧ ((copyMoveHash false true content bufSize statSrcOk openOk readOk statDirOk mkdirOk
        renameOk k).1 = false →
      (copyMoveHash false true content bufSize statSrcOk openOk readOk statDirOk mkdirOk
        renameOk k).2 = (copyBytesLoop bufSize 2 none content).hsh) := by
  cases statSrcOk <;> cases openOk <;> cases readOk <;> cases statDirOk <;> cases mkdirOk <;>
    cases renameOk <;> simp [copyMoveHash, renameM]

/-- Witness for C10: all rename steps succeed on a two-byte file. -/
theorem c10_witness :
    (copyMoveHash false true [4, 5] 8 true true true true true true 0).2 = [4, 5] :=
  (c10_move_hash_consistency [4, 5] 8 true true true true true true 0).1 rfl

/-! ### Path length facts used by the preamble claims -/

theorem isPrefixOf_length_le {l1 l2 : List Char} (h : l1.isPrefixOf l2 = true) :
    l1.length ≤ l2.length :=
  (List.isPrefixOf_iff_prefix.mp h).length_le

theorem splitDir_length_le (p : FPath) : (splitDir p).length ≤ p.length := by
  simp only [splitDir, List.length_take]
  omega

/-! ### C2: same-location handling of the v2 `Copy` preamble -/

/-- Counterexample filesystem for C2: a single regular file `/f`. -/
def fsC2 : FS := fun q => if q = ['/', 'f'] then some ⟨1, false, [7]⟩ else none

/-- C2 counterexample: invoking `Copy` with source and destination both
the file `/f` but with an exclude predicate matching the source returns
success (`nil`), not the dedicated same-location error, because the
exclude check precedes the `os.SameFile` check in the preamble. -/
theorem c2_counterexample :
    fsC2 ['/', 'f'] = some ⟨1, false, [7]⟩
    ∧ (copyPre (fun _ => true) false fsC2 ['/', 'f'] ['/', 'f']).1 = .okExcluded
    ∧ PreOutcome.okExcluded ≠ PreOutcome.errSame :=
  ⟨rfl, rfl, by decide⟩

/-- C2 (amended): provided the exclude predicate does not match the
resolved source, an invocation of `Copy` whose source and destination
paths hold the same underlying file (equal identity, as `os.SameFile`
compares) fails with the dedicated same-location error and returns the
filesystem unchanged — neither path is mutated in any way. -/
theorem c2_same_location_unchanged (exclude : FPath → Bool) (force : Bool) (fs : FS)
    (src dst : FPath) (o o' : FileObj) (h1 : fs src = some o) (h2 : fs dst = some o')
    (hid : o.ident = o'.ident) (hex : exclude src = false) :
    copyPre exclude force fs src dst = (.errSame, fs) := by
  simp [copyPre, hex, h1, h2, hid]

/-- Witness for C2 on the file `/f` with a never-matching exclude
predicate (the default). -/
theorem c2_witness :
    copyPre (fun _ => false) false fsC2 ['/', 'f'] ['/', 'f'] = (.errSame, fsC2) :=
  c2_same_location_unchanged (fun _ => false) false fsC2 ['/', 'f'] ['/', 'f']
    ⟨1, false, [7]⟩ ⟨1, false, [7]⟩ rfl rfl rfl rfl

/-! ### C3: pre-existing destination handling of the v2 `Copy` preamble -/

/-- Counterexample filesystem for C3: distinct regular files `/s` and
`/d`. -/
def fsC3 : FS := fun q =>
  if q = ['/', 's'] then some ⟨1, false, [7]⟩
  else if q = ['/', 'd'] then some ⟨2, false, [9]⟩ else none

/-- C3 counterexample: source `/s`, pre-existing distinct destination
`/d`, `force` not set, exclude predicate matching the source: `Copy`
returns success (`nil`) rather than the already-exists error. -/
theorem c3_counterexample :
    fsC3 ['/', 'd'] = some ⟨2, false, [9]⟩
    ∧ (copyPre (fun _ => true) false fsC3 ['/', 's'] ['/', 'd']).1 = .okExcluded
    ∧ PreOutcome.okExcluded ≠ PreOutcome.errExist :=
  ⟨rfl, rfl, by decide⟩

/-- C3 (amended): provided the exclude predicate does not match the
resolved source: when the destination exists and is not the same file as
the source, then without `force` the call fails with the already-exists
error and the filesystem is returned unchanged, and with `force` the
pre-existing destination is removed entirely (`os.RemoveAll`) before the
copy proceeds — the state handed to the copy stage is the result of
first removing the destination and then creating its parent chain: every
path strictly under the destination is gone, and the destination path
itself no longer holds the pre-existing object (it is either gone, or —
for a destination written with a trailing slash, where `os.MkdirAll`
receives the whole destination as the directory component — at most a
freshly created empty directory). -/
theorem c3_exists_and_force (exclude : FPath → Bool) (force : Bool) (fs : FS)
    (src dst : FPath) (o o' : FileObj) (h1 : fs src = some o) (h2 : fs dst = some o')
    (hid : o.ident ≠ o'.ident) (hex : exclude src = false) :
    (force = false → copyPre exclude force fs src dst = (.errExist, fs))
    ∧ (force = true →
        copyPre exclude force fs src dst
          = ((if o.isDir then PreOutcome.proceedDir else .proceedFile),
              mkdirAllM (splitDir dst) (removeAllM dst fs))
        ∧ (∀ p, isUnderB dst p = true →
            mkdirAllM (splitDir dst) (removeAllM dst fs) p = none)
        ∧ (mkdirAllM (splitDir dst) (removeAllM dst fs) dst = none
            ∨ mkdirAllM (splitDir dst) (removeAllM dst fs) dst = some ⟨0, true, []⟩)) := by
  have hdle := splitDir_length_le dst
  constructor
  · intro hf; subst hf
    simp [copyPre, hex, h1, h2, hid]
  · intro hf; subst hf
    refine ⟨?_, ?_, ?_⟩
    · cases hD : o.isDir <;> simp [copyPre, hex, h1, h2, hid, hD]
    · intro p hup
      have hlen : dst.length + 1 ≤ p.length := by
        have h := isPrefixOf_length_le (show (dst ++ ['/']).isPrefixOf p = true from hup)
        simpa using h
      have hT : mkdirTargetB p (splitDir dst) = false := by
        by_cases hp : p.isPrefixOf (splitDir dst)
        · exfalso
          have := isPrefixOf_length_le hp
          omega
        · simp [mkdirTargetB, hp]
      simp [mkdirAllM, removeAllM, hup, hT]
    · by_cases hT : mkdirTargetB dst (splitDir dst) = true
      · right
        simp [mkdirAllM, removeAllM, hT]
      · left
        simp [mkdirAllM, removeAllM, hT]

/-- Witness for C3: `/s` onto the pre-existing distinct `/d`, no force,
never-matching exclude predicate. -/
theorem c3_witness :
    copyPre (fun _ => false) false fsC3 ['/', 's'] ['/', 'd'] = (.errExist, fsC3) :=
  (c3_exists_and_force (fun _ => false) false fsC3 ['/', 's'] ['/', 'd']
    ⟨1, false, [7]⟩ ⟨2, false, [9]⟩ rfl rfl (by decide) rfl).1 rfl

/-! ### C4: skip semantics of the walk's non-directory branch -/

/-- C4: for a non-directory entry visited by the walk of `copyFolder`,
when the computed destination already exists and `force` is not set, the
entry is silently skipped — the callback returns `nil` and the
filesystem is unchanged, preserving the pre-existing destination
content; when the destination does not exist or `force` is set, the file
is copied and the destination afterwards holds the source content. -/
theorem c4_walk_skip_preserves_existing (force : Bool) (src dst : FPath) (fs : FS)
    (root : FPath) (content : List Nat) :
    (∀ o, fs (walkSubDst root src dst) = some o → force = false →
        folderFileStep force src dst fs root content = (.skipped, none, fs))
    ∧ (fs (walkSubDst root src dst) = none ∨ force = true →
        (folderFileStep force src dst fs root content).1 = .copied
        ∧ (folderFileStep force src dst fs root content).2.2 (walkSubDst root src dst)
            = some ⟨0, false, content⟩) := by
  constructor
  · intro o ho hf; subst hf
    simp [folderFileStep, ho]
  · intro h
    rcases h with h | h
    · simp [folderFileStep, h]
    · subst h; simp [folderFileStep]

/-- Witness filesystem for C4: the destination `/d/f` already exists. -/
def fsC4 : FS := fun q => if q = ['/', 'd', '/', 'f'] then some ⟨3, false, [1]⟩ else none

/-- Witness for C4: walking `/s` onto `/d` and visiting the file `/s/f`
whose destination `/d/f` already exists, without force: skipped, no
error, state unchanged. -/
theorem c4_witness :
    folderFileStep false ['/', 's'] ['/', 'd'] fsC4 ['/', 's', '/', 'f'] [5]
      = (.skipped, none, fsC4) :=
  (c4_walk_skip_preserves_existing false ['/', 's'] ['/', 'd'] fsC4 ['/', 's', '/', 'f']
    [5]).1 ⟨3, false, [1]⟩ (by decide) rfl

/-! ### C6: cancellation of the stream and the revert cleanup -/

theorem copyBytesGo_ops_le (size hc c : Nat) :
    ∀ (fuel : Nat) (data : List Nat) (poll : Nat),
      (copyBytesGo size hc (some c) fuel data poll).ops ≤ c - poll := by
  intro fuel
  induction fuel with
  | zero => intro data poll; simp [copyBytesGo]
  | succ n ih =>
    intro data poll
    by_cases hcan : ctxCanceled (some c) poll
    · simp [copyBytesGo, hcan]
    · have hpoll : poll < c := by
        simp [ctxCanceled] at hcan; omega
      by_cases hemp : (data.take size).isEmpty
      · simp [copyBytesGo, hcan, hemp]; omega
      · by_cases hcan2 : ctxCanceled (some c) (poll + 1)
        · simp [copyBytesGo, hcan, hemp, hcan2]; omega
        · have hpoll2 : poll + 1 < c := by
            simp [ctxCanceled] at hcan2; omega
          have hrec := ih (data.drop size) (poll + 2)
          simp [copyBytesGo, hcan, hemp, hcan2]
          omega

theorem copyBytesGo_canceled (size hc c : Nat) :
    ∀ (fuel : Nat) (data : List Nat) (poll : Nat), data.length < fuel →
      c < poll + opsTotalGo size fuel data →
      (copyBytesGo size hc (some c) fuel data poll).res = .canceled := by
  intro fuel
  induction fuel with
  | zero => intro data poll h; omega
  | succ n ih =>
    intro data poll h hc2
    by_cases hcan : ctxCanceled (some c) poll
    · simp [copyBytesGo, hcan]
    · have hpoll : poll < c := by
        simp [ctxCanceled] at hcan; omega
      by_cases hemp : (data.take size).isEmpty
      · exfalso
        simp [opsTotalGo, hemp] at hc2
        omega
      · by_cases hcan2 : ctxCanceled (some c) (poll + 1)
        · simp [copyBytesGo, hcan, hemp, hcan2]
        · have hd : data ≠ [] := by
            intro h0; subst h0; simp at hemp
          have hsz : size ≠ 0 := by
            intro h0; subst h0; simp at hemp
          have hlen : (data.drop size).length < n := by
            have hpos : 0 < data.length := List.length_pos.mpr hd
            have hdl : (data.drop size).length = data.length - size := List.length_drop size data
            omega
          have hrec := ih (data.drop size) (poll + 2) hlen (by
            simp [opsTotalGo, hemp] at hc2
            omega)
          simp [copyBytesGo, hcan, hemp, hcan2, hrec]

/-- C6: with the context canceled from poll index `c` onwards and `c`
small enough that the stream cannot finish within `c` read/write
operations: the loop performs at most `c` operations — nothing further is
read or written at or after the cancellation poll — and `copyFile` with
the revert option returns the cancellation error; the partially-written
destination file is removed (absent from the final state), and when that
removal itself fails the returned error wraps both the cancellation
error and the removal error. -/
theorem c6_cancel_no_io_and_cleanup (size c : Nat) (hashSet removeFails : Bool)
    (data : List Nat) (hcf : c < opsTotal size data) :
    (copyFileM size hashSet true data (some c) removeFails).ops ≤ c
    ∧ (removeFails = false →
        (copyFileM size hashSet true data (some c) removeFails).err = some .canceled
        ∧ (copyFileM size hashSet true data (some c) removeFails).dstExists = false
        ∧ (copyFileM size hashSet true data (some c) removeFails).dstBytes = [])
    ∧ (removeFails = true →
        (copyFileM size hashSet true data (some c) removeFails).err
          = some (.wrapped .canceled .removeErr)) := by
  have hres := copyBytesGo_canceled size (if hashSet then 2 else 0) c (data.length + 1) data 0
    (by omega) (by simpa [opsTotal] using hcf)
  have hops := copyBytesGo_ops_le size (if hashSet then 2 else 0) c (data.length + 1) data 0
  simp only [copyFileM, copyBytesLoop]
  rw [hres]
  cases removeFails <;> simp_all

/-- Witness for C6: one-byte file, buffer size 1, context canceled from
the very first poll, destination removal failing. -/
theorem c6_witness :
    (copyFileM 1 false true [5] (some 0) true).ops ≤ 0
    ∧ (copyFileM 1 false true [5] (some 0) true).err
        = some (.wrapped .canceled .removeErr) :=
  ⟨(c6_cancel_no_io_and_cleanup 1 0 false true [5] (by decide)).1,
   (c6_cancel_no_io_and_cleanup 1 0 false true [5] (by decide)).2.2 rfl⟩

/-! ### C7: parent directories are created before file writes -/

theorem safeTrace_append (ds : List FPath) (a b : List Ev)
    (ha : SafeTrace ds a) (hb : SafeTrace (runDirs ds a) b) : SafeTrace ds (a ++ b) := by
  induction a generalizing ds with
  | nil => simpa [runDirs] using hb
  | cons e r ih =>
    cases e with
    | mkdirAll p =>
      simp only [List.cons_append, SafeTrace] at ha ⊢
      exact ih (p :: ds) ha (by simpa [runDirs] using hb)
    | openW p =>
      simp only [List.cons_append, SafeTrace] at ha ⊢
      exact ⟨ha.1, ih ds ha.2 (by simpa [runDirs] using hb)⟩

mutual
theorem safeTrace_tree (ex : FPath → Bool) (src dst : FPath) :
    ∀ (rt : FPath) (t : FNode) (ds : List FPath), SafeTrace ds (treeEvents ex src dst rt t)
  | rt, .file _ _, ds => by
    by_cases hex : ex rt
    · simp [treeEvents, hex, SafeTrace]
    · simp [treeEvents, hex, SafeTrace]
  | rt, .dir _ cs, ds => by
    by_cases hex : ex rt
    · simpa [treeEvents, hex] using safeTrace_forest ex src dst rt cs ds
    · simp only [treeEvents, hex, Bool.false_eq_true, if_false]
      refine safeTrace_append ds _ _ ?_ ?_
      · simp [SafeTrace]
      · exact safeTrace_forest ex src dst rt cs _

theorem safeTrace_forest (ex : FPath → Bool) (src dst : FPath) :
    ∀ (rt : FPath) (f : Forest) (ds : List FPath), SafeTrace ds (forestEvents ex src dst rt f)
  | _, .nil, ds => by simp [forestEvents, SafeTrace]
  | rt, .cons c cs, ds => by
    simp only [forestEvents]
    exact safeTrace_append ds _ _ (safeTrace_tree ex src dst _ c ds)
      (safeTrace_forest ex src dst rt cs _)
end

mutual
theorem open_mem_tree (ex : FPath → Bool) (src dst : FPath) (hex : ∀ p, ex p = false) :
    ∀ (rt : FPath) (t : FNode) (fp : FPath), fp ∈ filePathsN rt t →
      Ev.openW (walkSubDst fp src dst) ∈ treeEvents ex src dst rt t
  | rt, .file _ _, fp => by
    intro hm
    simp only [filePathsN, List.mem_singleton] at hm
    subst hm
    simp [treeEvents, hex]
  | rt, .dir _ cs, fp => by
    intro hm
    simp only [filePathsN] at hm
    have h := open_mem_forest ex src dst hex rt cs fp hm
    simp only [treeEvents, hex rt, Bool.false_eq_true, if_false]
    exact List.mem_append_right _ h

theorem open_mem_forest (ex : FPath → Bool) (src dst : FPath) (hex : ∀ p, ex p = false) :
    ∀ (rt : FPath) (f : Forest) (fp : FPath), fp ∈ filePathsF rt f →
      Ev.openW (walkSubDst fp src dst) ∈ forestEvents ex src dst rt f
  | _, .nil, fp => by
    intro hm
    simp [filePathsF] at hm
  | rt, .cons c cs, fp => by
    intro hm
    simp only [filePathsF, List.mem_append] at hm
    simp only [forestEvents, List.mem_append]
    rcases hm with hm | hm
    · exact Or.inl (open_mem_tree ex src dst hex _ c fp hm)
    · exact Or.inr (open_mem_forest ex src dst hex rt cs fp hm)
end

theorem append_segment_trans {α : Type} {l m k : List α}
    (h1 : ∃ a b, l = a ++ m ++ b) (h2 : ∃ a b, m = a ++ k ++ b) :
    ∃ a b, l = a ++ k ++ b := by
  obtain ⟨a1, b1, e1⟩ := h1
  obtain ⟨a2, b2, e2⟩ := h2
  exact ⟨a1 ++ a2, b2 ++ b1, by simp [e1, e2]⟩

theorem forest_in_tree (ex : FPath → Bool) (src dst rt n : FPath) (cs : Forest) :
    ∃ a b, treeEvents ex src dst rt (.dir n cs)
      = a ++ forestEvents ex src dst rt cs ++ b :=
  ⟨if ex rt then [] else [.mkdirAll (walkSubDst rt src dst)], [], by simp [treeEvents]⟩

theorem forest_events_segment (ex : FPath → Bool) (src dst : FPath) {c : FNode} :
    ∀ {cs : Forest} (rt : FPath), ForestMem c cs →
      ∃ a b, forestEvents ex src dst rt cs
        = a ++ treeEvents ex src dst (childPath rt c.name) c ++ b := by
  intro cs rt hm
  induction hm with
  | head cs => exact ⟨[], forestEvents ex src dst rt cs, by simp [forestEvents]⟩
  | tail d cs hm ih =>
    obtain ⟨a, b, hab⟩ := ih
    exact ⟨treeEvents ex src dst (childPath rt d.name) d ++ a, b, by
      simp [forestEvents, hab]⟩

theorem subtree_events_segment (ex : FPath → Bool) (src dst : FPath) :
    ∀ {rt q : FPath} {t s : FNode}, SubtreeAt rt t q s →
      ∃ a b, treeEvents ex src dst rt t = a ++ treeEvents ex src dst q s ++ b := by
  intro rt q t s h
  induction h with
  | refl rt t => exact ⟨[], [], by simp⟩
  | child n cs hm hsub ih =>
    exact append_segment_trans
      (append_segment_trans (forest_in_tree ex src dst _ n cs)
        (forest_events_segment ex src dst _ hm)) ih

/-- C7: the destination tree walk never writes a file before its parent
directory exists.  First part: for every tree, every exclude predicate
and every starting set of created directories, the walk's event trace is
parent-safe — at every open-for-write event the parent directory of the
opened destination path has been created by an earlier `MkdirAll` (for a
file entry `copyTree` runs `os.MkdirAll(path.Dir(subDst))` immediately
before opening).  Second part (pre-order shape, no exclusions): for every
directory node reached by the walk and every file anywhere beneath it,
the trace creates that directory's destination strictly before it opens
that file's destination for writing. -/
theorem c7_parent_dir_before_file_write (ex : FPath → Bool) (src dst rt : FPath)
    (t : FNode) (ds : List FPath) :
    SafeTrace ds (treeEvents ex src dst rt t)
    ∧ ((∀ p, ex p = false) → ∀ (q m : FPath) (ks : Forest),
        SubtreeAt rt t q (.dir m ks) → ∀ fp ∈ filePathsF q ks,
          ∃ pre rest, treeEvents ex src dst rt t
              = pre ++ Ev.mkdirAll (walkSubDst q src dst) :: rest
            ∧ Ev.openW (walkSubDst fp src dst) ∈ rest) := by
  constructor
  · exact safeTrace_tree ex src dst rt t ds
  · intro hex q m ks hsub fp hfp
    obtain ⟨a, b, hab⟩ := subtree_events_segment ex src dst hsub
    have hopen : Ev.openW (walkSubDst fp src dst) ∈ forestEvents ex src dst q ks :=
      open_mem_forest ex src dst hex q ks fp hfp
    have hdir : treeEvents ex src dst q (.dir m ks)
        = Ev.mkdirAll (walkSubDst q src dst) :: forestEvents ex src dst q ks := by
      simp [treeEvents, hex q]
    refine ⟨a, forestEvents ex src dst q ks ++ b, ?_, ?_⟩
    · rw [hab, hdir]
      simp
    · exact List.mem_append_left _ hopen

/-- Witness tree for C7: a directory `r` containing the single file `f`. -/
def c7Tree : FNode := .dir ['r'] (.cons (.file ['f'] [1]) .nil)

/-- Witness for C7 on a concrete walk of `/s` onto `/d`: the trace is
parent-safe, and the root directory's destination is created strictly
before the destination of the file `/s/f` is opened. -/
theorem c7_witness :
    SafeTrace [] (treeEvents (fun _ => false) ['/', 's'] ['/', 'd'] ['/', 's'] c7Tree)
    ∧ ∃ pre rest,
        treeEvents (fun _ => false) ['/', 's'] ['/', 'd'] ['/', 's'] c7Tree
          = pre ++ Ev.mkdirAll (walkSubDst ['/', 's'] ['/', 's'] ['/', 'd']) :: rest
        ∧ Ev.openW (walkSubDst (childPath ['/', 's'] ['f']) ['/', 's'] ['/', 'd']) ∈ rest :=
  ⟨(c7_parent_dir_before_file_write (fun _ => false) ['/', 's'] ['/', 'd'] ['/', 's']
      c7Tree []).1,
   (c7_parent_dir_before_file_write (fun _ => false) ['/', 's'] ['/', 'd'] ['/', 's']
      c7Tree []).2 (fun _ => rfl) ['/', 's'] ['r'] (.cons (.file ['f'] [1]) .nil)
      (SubtreeAt.refl ['/', 's'] c7Tree) (childPath ['/', 's'] ['f'])
      (by simp [filePathsF, filePathsN, FNode.name, childPath])⟩
